import Mathlib

/-!
Verification of the quantum circuit editor (repository `quantum`).

The embedding covers the parts of the source the claims refer to:

* `src/unnamed/part_003` (`StateVectorView`): `calculateStateVector` and
  `applyGateToStateVector`, the state-vector engine.
* `src/src/hooks/useCircuit.ts`: `addGate`, `removeGate`, `setNumQubits`,
  export/import of circuits.
* `src/src/App.tsx` (`handleSimulate`): normalisation of shot counts.
* `src/unnamed/part_004` (`InsightsPanel`) and the `CircuitFixer` component:
  circuit depth.

The JavaScript source computes amplitudes with floating-point numbers.  All
amplitudes produced by the implemented gates (H, X, Z, CX) lie in the subring
of the reals of numbers `a + b * sqrt 2` with `a`, `b` rational; the embedding
idealises the floating-point arithmetic as exact arithmetic in that subring,
represented by pairs of rationals.
-/

namespace QuantumSim

/-- The number `a + b * sqrt 2` represented as the pair `(a, b)` of rationals.
Addition (used for summing squared magnitudes) is the componentwise addition
of the product type, which is the correct addition of this subring of ℝ. -/
abbrev Qsqrt2 : Type := ℚ × ℚ

/-- The number 1 in the `Qsqrt2` representation. -/
def oneQs : Qsqrt2 := (1, 0)

/-- The number 1/2 in the `Qsqrt2` representation. -/
def halfQs : Qsqrt2 := (1 / 2, 0)

/-- The square of `a + b * sqrt 2`: `(a^2 + 2 b^2) + (2 a b) * sqrt 2`. -/
def sqQs (x : Qsqrt2) : Qsqrt2 := (x.1 ^ 2 + 2 * x.2 ^ 2, 2 * (x.1 * x.2))

/-- Division of `a + b * sqrt 2` by `sqrt 2`, giving `b + (a/2) * sqrt 2`.
Models the `/ Math.sqrt(2)` of the source exactly. -/
def divSqrt2 (x : Qsqrt2) : Qsqrt2 := (x.2, x.1 / 2)

/-- A complex amplitude; mirrors the `ComplexNumber` record (`real`, `imag`)
of `StateVectorView` in `src/unnamed/part_003`, with each floating-point
component idealised as an exact element of `Qsqrt2`. -/
structure Cx where
  real : Qsqrt2
  imag : Qsqrt2
  deriving DecidableEq

/-- The amplitude 0. -/
def zeroC : Cx := ⟨(0, 0), (0, 0)⟩

/-- The amplitude 1. -/
def oneC : Cx := ⟨(1, 0), (0, 0)⟩

/-- Componentwise sum of amplitudes (`amp0 + amp1` in the H branch). -/
def addC (x y : Cx) : Cx := ⟨x.real + y.real, x.imag + y.imag⟩

/-- Componentwise difference of amplitudes (`amp0 - amp1` in the H branch). -/
def subC (x y : Cx) : Cx := ⟨x.real - y.real, x.imag - y.imag⟩

/-- Negation of an amplitude; models `real *= -1; imag *= -1` in the Z branch. -/
def negC (x : Cx) : Cx := ⟨-x.real, -x.imag⟩

/-- Division of an amplitude by `sqrt 2`, componentwise. -/
def divSqrt2C (x : Cx) : Cx := ⟨divSqrt2 x.real, divSqrt2 x.imag⟩

/-- Squared magnitude `real^2 + imag^2` of an amplitude, an element of
`Qsqrt2`; models `amp.real * amp.real + amp.imag * amp.imag`. -/
def normSq (x : Cx) : Qsqrt2 := sqQs x.real + sqQs x.imag

/-- A gate instance: the `QuantumGate` interface of `src/src/types/quantum.ts`
(`id`, `name`, `qubits`, optional `parameters`, optional `position`).  The
optional numeric fields are idealised as rationals / naturals. -/
structure QuantumGate where
  id : String
  name : String
  qubits : List ℕ
  parameters : Option (List ℚ) := none
  position : Option ℕ := none
  deriving DecidableEq

/-- A `(qubit, bit)` measurement pair from the `Circuit` interface. -/
structure Measurement where
  qubit : ℕ
  bit : ℕ
  deriving DecidableEq

/-- The `Circuit` interface of `src/src/types/quantum.ts`: a gate list and a
measurement list. -/
structure Circuit where
  gates : List QuantumGate
  measurements : List Measurement
  deriving DecidableEq

/-- The shift count of the JavaScript expression `numQubits - 1 - qubit` as it
reaches `1 << _`: JavaScript converts the shift count to a 32-bit integer and
keeps its low 5 bits, i.e. reduces it modulo 32 (so a negative difference,
possible only for an out-of-range qubit index, wraps around). -/
def jsShiftCount (numQubits qubit : ℕ) : ℕ :=
  (((numQubits : ℤ) - 1 - (qubit : ℤ)) % 32).toNat

/-- `const bitMask = 1 << (numQubits - 1 - qubit)` from the source.  For shift
count 31 JavaScript yields the negative int32 `-2^31` where this gives `2^31`;
that case is reachable only with an out-of-range qubit index and is not used
by any theorem below. -/
def bitMask (numQubits qubit : ℕ) : ℕ :=
  1 <<< jsShiftCount numQubits qubit

/-- `applyGateToStateVector` from `src/unnamed/part_003`, lines 68-149.  The
amplitude array is modelled as a total function on indices; the engine only
ever reads indices below `2 ^ numQubits` when every referenced qubit index is
in range.  The `switch` on `gate.name` implements H, X, Z and CX and falls
through (leaving the vector unchanged) for every other name.  `gate.qubits[0]`
and `gate.qubits[1]` are modelled with default 0 when absent (the claims that
need them are stated under well-formedness of the gate). -/
def applyGateToStateVector (stateVector : ℕ → Cx) (gate : QuantumGate)
    (numQubits : ℕ) : ℕ → Cx :=
  if gate.name = "H" then
    -- each pair (i, j = i XOR bitMask) is processed once, from the branch
    -- with i < j: new[i] = (amp0 + amp1)/sqrt 2, new[j] = (amp0 - amp1)/sqrt 2
    let mask := bitMask numQubits (gate.qubits.headD 0)
    fun i =>
      if i < i ^^^ mask then
        divSqrt2C (addC (stateVector i) (stateVector (i ^^^ mask)))
      else if i ^^^ mask < i then
        divSqrt2C (subC (stateVector (i ^^^ mask)) (stateVector i))
      else stateVector i
  else if gate.name = "X" then
    let mask := bitMask numQubits (gate.qubits.headD 0)
    fun i => stateVector (i ^^^ mask)
  else if gate.name = "Z" then
    let mask := bitMask numQubits (gate.qubits.headD 0)
    fun i => if i &&& mask ≠ 0 then negC (stateVector i) else stateVector i
  else if gate.name = "CX" then
    let controlMask := bitMask numQubits (gate.qubits.headD 0)
    let targetMask := bitMask numQubits (gate.qubits.getD 1 0)
    fun i =>
      if i &&& controlMask ≠ 0 then stateVector (i ^^^ targetMask)
      else stateVector i
  else stateVector

/-- The initial state `|0...0>`: amplitude 1 at index 0, 0 elsewhere
(`calculateStateVector`, lines 53-58). -/
def initialState : ℕ → Cx := fun i => if i = 0 then oneC else zeroC

/-- `calculateStateVector` from `src/unnamed/part_003`, lines 48-66: starting
from `|0...0>`, apply the gates of the circuit sequentially in gate-list
order (`circuit.gates.forEach`). -/
def calculateStateVector (circuit : Circuit) (numQubits : ℕ) : ℕ → Cx :=
  circuit.gates.foldl
    (fun sv gate => applyGateToStateVector sv gate numQubits) initialState

/-- Sum of the squared magnitudes of the `2 ^ numQubits` amplitudes of a state
vector (the squared norm computed in the Vector Properties panel). -/
def stateNormSq (stateVector : ℕ → Cx) (numQubits : ℕ) : Qsqrt2 :=
  ∑ i ∈ Finset.range (2 ^ numQubits), normSq (stateVector i)

/-- Well-formedness of a gate for the engine, as the data-model invariant of
the spec requires: the gate names the qubit entries it reads, each referenced
qubit index is below `numQubits`, and a CX has distinct control and target. -/
def gateOK (numQubits : ℕ) (gate : QuantumGate) : Bool :=
  if gate.name = "H" ∨ gate.name = "X" ∨ gate.name = "Z" then
    match gate.qubits with
    | q :: _ => decide (q < numQubits)
    | [] => false
  else if gate.name = "CX" then
    match gate.qubits with
    | c :: t :: _ => decide (c < numQubits) && decide (t < numQubits) && decide (c ≠ t)
    | _ => false
  else true

/-! ### Arithmetic facts about amplitudes -/

/-- Negating an amplitude preserves its squared magnitude. -/
lemma normSq_negC (x : Cx) : normSq (negC x) = normSq x := by
  rcases x with ⟨⟨a1, a2⟩, ⟨b1, b2⟩⟩
  simp only [normSq, negC, sqQs, Prod.neg_mk, Prod.mk_add_mk, Prod.mk.injEq]
  constructor <;> ring

/-- The parallelogram law behind the Hadamard butterfly: the pair
`((x + y)/sqrt 2, (x - y)/sqrt 2)` carries the same total squared magnitude
as the pair `(x, y)`. -/
lemma parallelogram (x y : Cx) :
    normSq (divSqrt2C (addC x y)) + normSq (divSqrt2C (subC x y))
      = normSq x + normSq y := by
  rcases x with ⟨⟨a1, a2⟩, ⟨b1, b2⟩⟩
  rcases y with ⟨⟨c1, c2⟩, ⟨d1, d2⟩⟩
  simp only [normSq, divSqrt2C, divSqrt2, addC, subC, sqQs, Prod.mk_add_mk,
    Prod.mk_sub_mk, Prod.mk.injEq]
  constructor <;> ring

/-! ### Bitmask facts -/

lemma bitMask_eq_pow (numQubits qubit : ℕ) :
    bitMask numQubits qubit = 2 ^ jsShiftCount numQubits qubit := by
  simp [bitMask, Nat.shiftLeft_eq]

lemma jsShiftCount_lt {numQubits qubit : ℕ} (hq : qubit < numQubits) :
    jsShiftCount numQubits qubit < numQubits := by
  unfold jsShiftCount
  rcases le_or_lt numQubits 32 with h | h
  · rw [Int.emod_eq_of_lt (by omega) (by omega)]
    omega
  · have h0 : (0 : ℤ) ≤ ((numQubits : ℤ) - 1 - (qubit : ℤ)) % 32 :=
      Int.emod_nonneg _ (by norm_num)
    have h1 : ((numQubits : ℤ) - 1 - (qubit : ℤ)) % 32 < 32 :=
      Int.emod_lt_of_pos _ (by norm_num)
    omega

lemma jsShiftCount_eq_sub {numQubits qubit : ℕ} (hq : qubit < numQubits)
    (hn : numQubits ≤ 32) :
    jsShiftCount numQubits qubit = numQubits - 1 - qubit := by
  unfold jsShiftCount
  rw [Int.emod_eq_of_lt (by omega) (by omega)]
  omega

lemma and_two_pow_eq_zero_iff (x s : ℕ) :
    x &&& 2 ^ s = 0 ↔ x.testBit s = false := by
  rw [Nat.and_two_pow]
  rcases h : x.testBit s <;> simp [h, (Nat.two_pow_pos s).ne']

lemma testBit_xor_two_pow_self (i s : ℕ) :
    (i ^^^ 2 ^ s).testBit s = !i.testBit s := by
  simp [Nat.testBit_xor, Nat.testBit_two_pow_self]

lemma testBit_xor_two_pow_of_ne {s j : ℕ} (h : s ≠ j) (i : ℕ) :
    (i ^^^ 2 ^ s).testBit j = i.testBit j := by
  simp [Nat.testBit_xor, Nat.testBit_two_pow_of_ne h]

/-- An index with bit `s` clear grows when that bit is flipped; this is the
`i < j` test the H branch of the source uses to process each pair once. -/
lemma lt_xor_two_pow {i s : ℕ} (h : i.testBit s = false) : i < i ^^^ 2 ^ s := by
  refine Nat.lt_of_testBit s h ?_ ?_
  · rw [testBit_xor_two_pow_self, h]
    rfl
  · intro j hj
    exact (testBit_xor_two_pow_of_ne (Nat.ne_of_lt hj) i).symm

lemma xor_two_pow_lt {i s : ℕ} (h : i.testBit s = true) : i ^^^ 2 ^ s < i := by
  have h2 : (i ^^^ 2 ^ s).testBit s = false := by
    rw [testBit_xor_two_pow_self, h]
    rfl
  refine Nat.lt_of_testBit s h2 h ?_
  intro j hj
  exact testBit_xor_two_pow_of_ne (Nat.ne_of_lt hj) i

/-! ### Reindexing sums over the index range -/

/-- XOR with a fixed in-range mask permutes the index range of the state
vector, so it preserves sums over it. -/
lemma sum_range_comp_xor (n mask : ℕ) (hmask : mask < 2 ^ n) (F : ℕ → Qsqrt2) :
    ∑ i ∈ Finset.range (2 ^ n), F (i ^^^ mask)
      = ∑ i ∈ Finset.range (2 ^ n), F i := by
  refine Finset.sum_nbij' (fun i => i ^^^ mask) (fun i => i ^^^ mask)
    ?_ ?_ ?_ ?_ ?_
  · intro a ha
    rw [Finset.mem_range] at ha ⊢
    exact Nat.xor_lt_two_pow ha hmask
  · intro a ha
    rw [Finset.mem_range] at ha ⊢
    exact Nat.xor_lt_two_pow ha hmask
  · intro a _
    exact Nat.xor_cancel_right _ _
  · intro a _
    exact Nat.xor_cancel_right _ _
  · intro a _
    rfl

/-- A sum over the index range can be grouped into the pairs
`(i, i XOR 2 ^ s)` with bit `s` of `i` clear — the pairs the H branch of the
source processes. -/
lemma sum_range_pair (n s : ℕ) (hs : s < n) (F : ℕ → Qsqrt2) :
    ∑ i ∈ Finset.range (2 ^ n), F i
      = ∑ i ∈ (Finset.range (2 ^ n)).filter (fun i => i &&& 2 ^ s = 0),
          (F i + F (i ^^^ 2 ^ s)) := by
  have hmask : 2 ^ s < 2 ^ n := Nat.pow_lt_pow_right (by norm_num) hs
  rw [← Finset.sum_filter_add_sum_filter_not (Finset.range (2 ^ n))
    (fun i => i &&& 2 ^ s = 0) F]
  rw [Finset.sum_add_distrib]
  congr 1
  refine Finset.sum_nbij' (fun i => i ^^^ 2 ^ s) (fun i => i ^^^ 2 ^ s)
    ?_ ?_ ?_ ?_ ?_
  · intro a ha
    simp only [Finset.mem_filter, Finset.mem_range] at ha ⊢
    refine ⟨Nat.xor_lt_two_pow ha.1 hmask, ?_⟩
    rw [and_two_pow_eq_zero_iff] at ha ⊢
    rw [testBit_xor_two_pow_self]
    rcases h : a.testBit s with _ | _
    · exact absurd h ha.2
    · rfl
  · intro a ha
    simp only [Finset.mem_filter, Finset.mem_range] at ha ⊢
    refine ⟨Nat.xor_lt_two_pow ha.1 hmask, ?_⟩
    rw [and_two_pow_eq_zero_iff] at ha
    rw [and_two_pow_eq_zero_iff, testBit_xor_two_pow_self, ha.2]
    simp
  · intro a _
    exact Nat.xor_cancel_right _ _
  · intro a _
    exact Nat.xor_cancel_right _ _
  · intro a _
    rw [Nat.xor_cancel_right]

/-! ### Norm preservation of the implemented gate branches -/

/-- The H branch preserves the sum of squared magnitudes. -/
lemma stateNormSq_applyH (n s : ℕ) (hs : s < n) (sv : ℕ → Cx) :
    stateNormSq (fun i =>
      if i < i ^^^ 2 ^ s then divSqrt2C (addC (sv i) (sv (i ^^^ 2 ^ s)))
      else if i ^^^ 2 ^ s < i then divSqrt2C (subC (sv (i ^^^ 2 ^ s)) (sv i))
      else sv i) n = stateNormSq sv n := by
  unfold stateNormSq
  rw [sum_range_pair n s hs, sum_range_pair n s hs]
  refine Finset.sum_congr rfl ?_
  intro i hi
  simp only [Finset.mem_filter, Finset.mem_range] at hi
  have hb : i.testBit s = false := (and_two_pow_eq_zero_iff i s).mp hi.2
  have h1 : i < i ^^^ 2 ^ s := lt_xor_two_pow hb
  have h2 : (i ^^^ 2 ^ s) ^^^ 2 ^ s = i := Nat.xor_cancel_right _ _
  dsimp only
  rw [if_pos h1, h2, if_neg (lt_asymm h1), if_pos h1]
  exact parallelogram (sv i) (sv (i ^^^ 2 ^ s))

/-- The X branch (a permutation of amplitudes) preserves the sum of squared
magnitudes. -/
lemma stateNormSq_applyX (n mask : ℕ) (hmask : mask < 2 ^ n) (sv : ℕ → Cx) :
    stateNormSq (fun i => sv (i ^^^ mask)) n = stateNormSq sv n :=
  sum_range_comp_xor n mask hmask (fun i => normSq (sv i))

/-- The Z branch (sign flips) preserves the sum of squared magnitudes. -/
lemma stateNormSq_applyZ (n mask : ℕ) (sv : ℕ → Cx) :
    stateNormSq (fun i => if i &&& mask ≠ 0 then negC (sv i) else sv i) n
      = stateNormSq sv n := by
  unfold stateNormSq
  refine Finset.sum_congr rfl ?_
  intro i _
  dsimp only
  by_cases h : i &&& mask ≠ 0
  · rw [if_pos h, normSq_negC]
  · rw [if_neg h]

/-- The CX branch (a permutation of amplitudes when control and target bits
differ) preserves the sum of squared magnitudes. -/
lemma stateNormSq_applyCX (n a b : ℕ) (hb : b < n) (hab : a ≠ b) (sv : ℕ → Cx) :
    stateNormSq (fun i => if i &&& 2 ^ a ≠ 0 then sv (i ^^^ 2 ^ b) else sv i) n
      = stateNormSq sv n := by
  unfold stateNormSq
  have hbm : 2 ^ b < 2 ^ n := Nat.pow_lt_pow_right (by norm_num) hb
  have key : ∀ i, normSq (if i &&& 2 ^ a ≠ 0 then sv (i ^^^ 2 ^ b) else sv i)
      = normSq (sv (if i &&& 2 ^ a ≠ 0 then i ^^^ 2 ^ b else i)) := by
    intro i
    by_cases h : i &&& 2 ^ a ≠ 0 <;> simp [h]
  simp only [key]
  have hfix : ∀ i, (i ^^^ 2 ^ b) &&& 2 ^ a = i &&& 2 ^ a := by
    intro i
    rw [Nat.and_two_pow, Nat.and_two_pow,
      testBit_xor_two_pow_of_ne (fun h => hab h.symm) i]
  have hinv : ∀ i, (if (if i &&& 2 ^ a ≠ 0 then i ^^^ 2 ^ b else i) &&& 2 ^ a ≠ 0
      then (if i &&& 2 ^ a ≠ 0 then i ^^^ 2 ^ b else i) ^^^ 2 ^ b
      else (if i &&& 2 ^ a ≠ 0 then i ^^^ 2 ^ b else i)) = i := by
    intro i
    by_cases h : i &&& 2 ^ a ≠ 0
    · rw [if_pos h, if_pos (by rw [hfix i]; exact h), Nat.xor_cancel_right]
    · rw [if_neg h, if_neg h]
  refine Finset.sum_nbij' (fun i => if i &&& 2 ^ a ≠ 0 then i ^^^ 2 ^ b else i)
    (fun i => if i &&& 2 ^ a ≠ 0 then i ^^^ 2 ^ b else i) ?_ ?_ ?_ ?_ ?_
  · intro i hi
    rw [Finset.mem_range] at hi ⊢
    dsimp only
    by_cases h : i &&& 2 ^ a ≠ 0
    · rw [if_pos h]
      exact Nat.xor_lt_two_pow hi hbm
    · rw [if_neg h]
      exact hi
  · intro i hi
    rw [Finset.mem_range] at hi ⊢
    dsimp only
    by_cases h : i &&& 2 ^ a ≠ 0
    · rw [if_pos h]
      exact Nat.xor_lt_two_pow hi hbm
    · rw [if_neg h]
      exact hi
  · intro i _
    exact hinv i
  · intro i _
    exact hinv i
  · intro i _
    rfl

/-! ### Norm preservation of `applyGateToStateVector` -/

/-- Applying any well-formed gate preserves the sum of squared magnitudes
(`numQubits ≤ 32` keeps the JavaScript 32-bit shift faithful to the intended
`numQubits - 1 - qubit`; the UI caps `numQubits` at 8). -/
lemma stateNormSq_applyGate (numQubits : ℕ) (hn : numQubits ≤ 32)
    (g : QuantumGate) (hg : gateOK numQubits g = true) (sv : ℕ → Cx) :
    stateNormSq (applyGateToStateVector sv g numQubits) numQubits
      = stateNormSq sv numQubits := by
  by_cases hH : g.name = "H"
  · rcases hqb : g.qubits with _ | ⟨q, rest⟩
    · simp [gateOK, hH, hqb] at hg
    · have hq : q < numQubits := by
        simp [gateOK, hH, hqb] at hg
        exact hg
      have heq : applyGateToStateVector sv g numQubits = fun i =>
          if i < i ^^^ 2 ^ jsShiftCount numQubits q then
            divSqrt2C (addC (sv i) (sv (i ^^^ 2 ^ jsShiftCount numQubits q)))
          else if i ^^^ 2 ^ jsShiftCount numQubits q < i then
            divSqrt2C (subC (sv (i ^^^ 2 ^ jsShiftCount numQubits q)) (sv i))
          else sv i := by
        simp [applyGateToStateVector, hH, hqb, bitMask_eq_pow]
      rw [heq]
      exact stateNormSq_applyH numQubits (jsShiftCount numQubits q)
        (jsShiftCount_lt hq) sv
  · by_cases hX : g.name = "X"
    · rcases hqb : g.qubits with _ | ⟨q, rest⟩
      · simp [gateOK, hX, hqb] at hg
      · have hq : q < numQubits := by
          simp [gateOK, hX, hqb] at hg
          exact hg
        have heq : applyGateToStateVector sv g numQubits = fun i =>
            sv (i ^^^ 2 ^ jsShiftCount numQubits q) := by
          simp [applyGateToStateVector, hH, hX, hqb, bitMask_eq_pow]
        rw [heq]
        exact stateNormSq_applyX numQubits (2 ^ jsShiftCount numQubits q)
          (Nat.pow_lt_pow_right (by norm_num) (jsShiftCount_lt hq)) sv
    · by_cases hZ : g.name = "Z"
      · have heq : applyGateToStateVector sv g numQubits = fun i =>
            if i &&& bitMask numQubits (g.qubits.headD 0) ≠ 0 then negC (sv i)
            else sv i := by
          simp [applyGateToStateVector, hH, hX, hZ]
        rw [heq]
        exact stateNormSq_applyZ numQubits _ sv
      · by_cases hCX : g.name = "CX"
        · rcases hqb : g.qubits with _ | ⟨c, _ | ⟨t, rest⟩⟩
          · simp [gateOK, hH, hX, hZ, hCX, hqb] at hg
          · simp [gateOK, hH, hX, hZ, hCX, hqb] at hg
          · have hct : (c < numQubits ∧ t < numQubits) ∧ ¬c = t := by
              simp [gateOK, hH, hX, hZ, hCX, hqb] at hg
              exact hg
            have heq : applyGateToStateVector sv g numQubits = fun i =>
                if i &&& 2 ^ jsShiftCount numQubits c ≠ 0 then
                  sv (i ^^^ 2 ^ jsShiftCount numQubits t)
                else sv i := by
              simp [applyGateToStateVector, hH, hX, hZ, hCX, hqb, bitMask_eq_pow]
            rw [heq]
            refine stateNormSq_applyCX numQubits (jsShiftCount numQubits c)
              (jsShiftCount numQubits t) (jsShiftCount_lt hct.1.2) ?_ sv
            rw [jsShiftCount_eq_sub hct.1.1 hn, jsShiftCount_eq_sub hct.1.2 hn]
            have hne := hct.2
            omega
        · have heq : applyGateToStateVector sv g numQubits = sv := by
            simp [applyGateToStateVector, hH, hX, hZ, hCX]
          rw [heq]

/-- The initial state `|0...0>` has squared norm 1. -/
lemma stateNormSq_initialState (numQubits : ℕ) :
    stateNormSq initialState numQubits = oneQs := by
  unfold stateNormSq initialState
  have hpt : ∀ i : ℕ, normSq (if i = 0 then oneC else zeroC)
      = if i = 0 then oneQs else 0 := by
    intro i
    by_cases h : i = 0 <;>
      simp [h, normSq, oneC, zeroC, sqQs, oneQs, Prod.ext_iff]
  simp only [hpt]
  rw [Finset.sum_ite_eq' (Finset.range (2 ^ numQubits)) 0 (fun _ => oneQs)]
  simp [Finset.mem_range, Nat.two_pow_pos]

/-! ### Claim C1 -/

/-- C1: for every circuit whose gates are well formed on `numQubits` qubits
(each referenced qubit index below `numQubits` — the standing data-model
invariant — and CX with distinct control and target; `numQubits ≤ 32` covers
the systems cap of 8 qubits and keeps the JavaScript 32-bit shift equal to the
intended exponent), the state-vector engine started from `|0...0>` yields
amplitudes whose squared magnitudes sum to exactly 1 in the exact-arithmetic
model of the float computation — in particular the sum is within 1e-9 of 1. -/
theorem claim_C1_norm_one (numQubits : ℕ) (circuit : Circuit)
    (hn : numQubits ≤ 32)
    (hwf : circuit.gates.all (gateOK numQubits) = true) :
    stateNormSq (calculateStateVector circuit numQubits) numQubits = oneQs := by
  unfold calculateStateVector
  have main : ∀ gs : List QuantumGate, gs.all (gateOK numQubits) = true →
      ∀ sv : ℕ → Cx, stateNormSq sv numQubits = oneQs →
      stateNormSq
        (gs.foldl (fun sv gate => applyGateToStateVector sv gate numQubits) sv)
        numQubits = oneQs := by
    intro gs
    induction gs with
    | nil =>
      intro _ sv h
      simpa using h
    | cons g t ih =>
      intro hall sv h
      rw [List.all_cons, Bool.and_eq_true] at hall
      rw [List.foldl_cons]
      refine ih hall.2 _ ?_
      rw [stateNormSq_applyGate numQubits hn g hall.1 sv]
      exact h
  exact main circuit.gates hwf initialState (stateNormSq_initialState numQubits)

/-- A circuit exercising all four implemented gates, used to witness C1. -/
def c1SampleCircuit : Circuit :=
  ⟨[⟨"1", "H", [0], none, some 0⟩, ⟨"2", "X", [1], none, some 0⟩,
    ⟨"3", "Z", [0], none, some 1⟩, ⟨"4", "CX", [0, 1], none, some 2⟩], []⟩

/-- Witness for C1: the hypotheses hold and the conclusion follows at the
concrete circuit `[H(0), X(1), Z(0), CX(0,1)]` on 2 qubits. -/
theorem claim_C1_norm_one_witness :
    2 ≤ 32 ∧ c1SampleCircuit.gates.all (gateOK 2) = true ∧
      stateNormSq (calculateStateVector c1SampleCircuit 2) 2 = oneQs :=
  ⟨by norm_num, by decide, claim_C1_norm_one 2 c1SampleCircuit (by norm_num) (by decide)⟩

/-! ### Claim C4 -/

/-- The circuit `[H(0), CX(0,1)]` of the spec example. -/
def bellCircuit : Circuit :=
  ⟨[⟨"1", "H", [0], none, some 0⟩, ⟨"2", "CX", [0, 1], none, some 1⟩], []⟩

unseal Rat.add Rat.mul Rat.inv Rat.sub in
/-- C4: simulating `[H(0), CX(0,1)]` on 2 qubits gives squared magnitude 1/2
on the basis states `|00>` (index 0) and `|11>` (index 3) and 0 on `|01>`
(index 1) and `|10>` (index 2). -/
theorem claim_C4_bell_state :
    normSq (calculateStateVector bellCircuit 2 0) = halfQs ∧
    normSq (calculateStateVector bellCircuit 2 1) = 0 ∧
    normSq (calculateStateVector bellCircuit 2 2) = 0 ∧
    normSq (calculateStateVector bellCircuit 2 3) = halfQs := by
  refine ⟨by decide, by decide, by decide, by decide⟩

/-! ### Claim C2: processing order -/

/-- Sort key used by the spec for processing order: the `position` field
(0 when absent, as in `g.position || 0`). -/
def posKey (g : QuantumGate) : ℕ := g.position.getD 0

/-- Insert a gate before the first existing gate whose position is not
strictly smaller, so that ties keep insertion order. -/
def insertByPosition (g : QuantumGate) : List QuantumGate → List QuantumGate
  | [] => [g]
  | h :: t => if posKey h < posKey g then h :: insertByPosition g t else g :: h :: t

/-- Stable sort of a gate list by `position` (ties keep insertion order). -/
def sortByPosition : List QuantumGate → List QuantumGate
  | [] => []
  | g :: gs => insertByPosition g (sortByPosition gs)

/-- The processing model stated by the spec (§4.3): gates applied in
`position` order, ties broken by insertion order.  This is the reference
semantics the engine is compared against; the source contains no sorting. -/
def calculateStateVectorByPosition (circuit : Circuit) (numQubits : ℕ) :
    ℕ → Cx :=
  (sortByPosition circuit.gates).foldl
    (fun sv gate => applyGateToStateVector sv gate numQubits) initialState

lemma insertByPosition_of_le (g : QuantumGate) (l : List QuantumGate)
    (hl : ∀ h ∈ l, posKey g ≤ posKey h) : insertByPosition g l = g :: l := by
  cases l with
  | nil => rfl
  | cons h t =>
    rw [insertByPosition, if_neg (not_lt.mpr (hl h (List.mem_cons_self h t)))]

lemma sortByPosition_eq_self (l : List QuantumGate)
    (hl : l.Pairwise (fun a b => posKey a ≤ posKey b)) : sortByPosition l = l := by
  induction l with
  | nil => rfl
  | cons g t ih =>
    rw [List.pairwise_cons] at hl
    rw [sortByPosition, ih hl.2, insertByPosition_of_le g t hl.1]

/-- A circuit whose gate list is not sorted by position: `X(0)` at position 1
inserted before `H(0)` at position 0. -/
def outOfOrderCircuit : Circuit :=
  ⟨[⟨"1", "X", [0], none, some 1⟩, ⟨"2", "H", [0], none, some 0⟩], []⟩

unseal Rat.add Rat.mul Rat.inv Rat.sub in
/-- Counterexample to C2: on `outOfOrderCircuit` (1 qubit) the engine applies
the gates in raw list order (X then H), producing amplitude `-1/sqrt 2` at
index 1, while the position-sorted semantics (H then X) produces `+1/sqrt 2`
there; the two results differ. -/
theorem claim_C2_counterexample :
    calculateStateVector outOfOrderCircuit 1 1 = ⟨(0, -(1 / 2)), (0, 0)⟩ ∧
    calculateStateVectorByPosition outOfOrderCircuit 1 1 = ⟨(0, 1 / 2), (0, 0)⟩ ∧
    calculateStateVector outOfOrderCircuit 1 1
      ≠ calculateStateVectorByPosition outOfOrderCircuit 1 1 := by
  refine ⟨by decide, by decide, by decide⟩

/-- C2 (amended): the engine applies gates in raw gate-list order and ignores
`position`; its result agrees with the position-order semantics exactly when
the gate list is already ordered by position (e.g. for every list the editor
builds in position order). -/
theorem claim_C2_list_order (circuit : Circuit) (numQubits : ℕ)
    (hsorted : circuit.gates.Pairwise (fun a b => posKey a ≤ posKey b)) :
    calculateStateVector circuit numQubits
      = calculateStateVectorByPosition circuit numQubits := by
  unfold calculateStateVector calculateStateVectorByPosition
  rw [sortByPosition_eq_self circuit.gates hsorted]

/-- A circuit already ordered by position, used to witness the amended C2. -/
def c2SortedCircuit : Circuit :=
  ⟨[⟨"1", "H", [0], none, some 0⟩, ⟨"2", "X", [0], none, some 1⟩], []⟩

/-- Witness for the amended C2 at a concrete position-ordered circuit. -/
theorem claim_C2_list_order_witness :
    c2SortedCircuit.gates.Pairwise (fun a b => posKey a ≤ posKey b) ∧
    calculateStateVector c2SortedCircuit 1
      = calculateStateVectorByPosition c2SortedCircuit 1 :=
  ⟨by decide, claim_C2_list_order c2SortedCircuit 1 (by decide)⟩

/-! ### Claim C3: gates other than H, X, Z, CX -/

/-- A circuit consisting of a single Y gate. -/
def yCircuit : Circuit := ⟨[⟨"1", "Y", [0], none, some 0⟩], []⟩

/-- `X(0)` followed by `SWAP(0,1)`. -/
def swapCircuit : Circuit :=
  ⟨[⟨"1", "X", [0], none, some 0⟩, ⟨"2", "SWAP", [0, 1], none, some 1⟩], []⟩

/-- Counterexample to C3: the engine leaves the state unchanged for a Y gate
(`Y|0> = i|1>` would move all weight to index 1) and for a SWAP gate
(`SWAP(0,1)` after `X(0)` would yield `|01>` = index 1, but the engine keeps
`|10>` = index 2). -/
theorem claim_C3_counterexample :
    calculateStateVector yCircuit 1 = initialState ∧
    calculateStateVector swapCircuit 2 2 = oneC ∧
    calculateStateVector swapCircuit 2 1 = zeroC := by
  refine ⟨?_, by decide, by decide⟩
  simp [calculateStateVector, yCircuit, applyGateToStateVector]

/-- C3 (amended): the state-vector engine implements only H, X, Z and CX;
for every other gate name (Y, S, S†, T, T†, RX, RY, RZ, U3, CZ, CY, SWAP,
CCX, ...) it applies no transformation at all, leaving the amplitude vector
unchanged rather than applying the standard unitary action. -/
theorem claim_C3_other_gates_identity (sv : ℕ → Cx) (g : QuantumGate)
    (numQubits : ℕ) (hH : g.name ≠ "H") (hX : g.name ≠ "X")
    (hZ : g.name ≠ "Z") (hCX : g.name ≠ "CX") :
    applyGateToStateVector sv g numQubits = sv := by
  simp [applyGateToStateVector, hH, hX, hZ, hCX]

/-- Witness for the amended C3 at a concrete Y gate. -/
theorem claim_C3_other_gates_identity_witness :
    applyGateToStateVector initialState ⟨"1", "Y", [0], none, some 0⟩ 1
      = initialState :=
  claim_C3_other_gates_identity initialState ⟨"1", "Y", [0], none, some 0⟩ 1
    (by decide) (by decide) (by decide) (by decide)

/-! ### Claim C5: validation -/

/-- The validation the spec requires before simulation (§4.3, §7): every gate
references only qubit indices below `numQubits`.  This is a reference
definition written from the words of the spec; the source performs no such
check. -/
def validateCircuit (circuit : Circuit) (numQubits : ℕ) : Bool :=
  circuit.gates.all (fun g => g.qubits.all (fun q => decide (q < numQubits)))

/-- The fail-fast engine the spec describes: reject structurally invalid
circuits before applying any gate, otherwise simulate.  Reference definition
from the words of the spec, used to state C5 against the code. -/
def calculateStateVectorChecked (circuit : Circuit) (numQubits : ℕ) :
    Option (ℕ → Cx) :=
  if validateCircuit circuit numQubits then
    some (calculateStateVector circuit numQubits)
  else none

/-- `X(0)` followed by `Z(5)` on 2 qubits: the second gate references qubit 5,
which is out of range. -/
def invalidCircuit : Circuit :=
  ⟨[⟨"1", "X", [0], none, some 0⟩, ⟨"2", "Z", [5], none, some 1⟩], []⟩

/-- Counterexample to C5: the spec-level fail-fast engine rejects
`invalidCircuit`, but the engine of the source computes a state vector on it —
the amplitude at index 2 is 1, i.e. the valid gate `X(0)` was applied and the
out-of-range `Z(5)` was processed (its wrapped bitmask `2^28` touches no
in-range amplitude) instead of a structural error being raised. -/
theorem claim_C5_counterexample :
    calculateStateVectorChecked invalidCircuit 2 = none ∧
    calculateStateVector invalidCircuit 2 2 = oneC := by
  constructor
  · have hv : validateCircuit invalidCircuit 2 = false := by decide
    simp [calculateStateVectorChecked, hv]
  · decide

/-- C5 (amended): the engine performs no validation and never rejects; on the
inconsistent circuit `[X(0), Z(5)]` with 2 qubits it computes the full state
vector `|10>` (amplitudes 0, 0, 1, 0), applying the in-range gate and treating
the out-of-range gate by the same wrapped bitmask arithmetic. -/
theorem claim_C5_no_validation :
    calculateStateVector invalidCircuit 2 0 = zeroC ∧
    calculateStateVector invalidCircuit 2 1 = zeroC ∧
    calculateStateVector invalidCircuit 2 2 = oneC ∧
    calculateStateVector invalidCircuit 2 3 = zeroC := by
  refine ⟨by decide, by decide, by decide, by decide⟩

/-! ### Circuit-model operations (`useCircuit.ts`) -/

/-- `addGate` from `useCircuit.ts`: append the gate with a freshly assigned
id (`Date.now().toString()`, modelled as the `newId` argument); nothing else
of the circuit changes. -/
def addGate (circuit : Circuit) (gate : QuantumGate) (newId : String) :
    Circuit :=
  { circuit with gates := circuit.gates ++ [{ gate with id := newId }] }

/-- `removeGate` from `useCircuit.ts`: keep the gates whose id differs from
`gateId`. -/
def removeGate (circuit : Circuit) (gateId : String) : Circuit :=
  { circuit with gates := circuit.gates.filter (fun g => g.id != gateId) }

/-- `setNumQubits` from `useCircuit.ts`, lines 32-41: keep exactly the gates
all of whose qubit indices are below the new qubit count. -/
def setNumQubits (circuit : Circuit) (newNumQubits : ℕ) : Circuit :=
  { circuit with
    gates := circuit.gates.filter
      (fun g => g.qubits.all (fun q => decide (q < newNumQubits))) }

/-! ### Claim C6 -/

/-- C6: `setNumQubits` keeps the surviving gates unchanged and in order (the
filtered list is a sublist of the original), every surviving gate references
only qubit indices below the new count, and every gate of the original
circuit whose qubit indices are all below the new count survives — so exactly
the gates referencing an out-of-range qubit are removed. -/
theorem claim_C6_setNumQubits (circuit : Circuit) (n : ℕ) :
    (setNumQubits circuit n).gates.Sublist circuit.gates ∧
    (∀ g ∈ (setNumQubits circuit n).gates, ∀ q ∈ g.qubits, q < n) ∧
    (∀ g ∈ circuit.gates, (∀ q ∈ g.qubits, q < n) →
      g ∈ (setNumQubits circuit n).gates) := by
  refine ⟨List.filter_sublist _, ?_, ?_⟩
  · intro g hg q hq
    simp only [setNumQubits, List.mem_filter, List.all_eq_true,
      decide_eq_true_eq] at hg
    exact hg.2 q hq
  · intro g hg hq
    simp only [setNumQubits, List.mem_filter, List.all_eq_true,
      decide_eq_true_eq]
    exact ⟨hg, hq⟩

/-- The spec example for C6: a circuit holding a gate on qubit 3 and a gate on
qubits 0 and 1, before `setNumQubits` to 2. -/
def c6Circuit : Circuit :=
  ⟨[⟨"1", "H", [3], none, some 0⟩, ⟨"2", "CX", [0, 1], none, some 0⟩], []⟩

/-- Witness for C6: lowering the qubit count from 4 to 2 drops the gate on
qubit 3 and keeps the gate on qubits 0 and 1. -/
theorem claim_C6_setNumQubits_witness :
    (setNumQubits c6Circuit 2).gates.Sublist c6Circuit.gates ∧
    (⟨"1", "H", [3], none, some 0⟩ : QuantumGate) ∉ (setNumQubits c6Circuit 2).gates ∧
    (⟨"2", "CX", [0, 1], none, some 0⟩ : QuantumGate) ∈ (setNumQubits c6Circuit 2).gates :=
  ⟨(claim_C6_setNumQubits c6Circuit 2).1,
    fun h => absurd ((claim_C6_setNumQubits c6Circuit 2).2.1 _ h 3 (by decide))
      (by decide),
    (claim_C6_setNumQubits c6Circuit 2).2.2 _ (by decide) (by decide)⟩

/-! ### Claim C10 -/

/-- C10: `addGate`, `removeGate` and `setNumQubits` never touch the
`measurements` field of the circuit. -/
theorem claim_C10_measurements_frame (circuit : Circuit) (gate : QuantumGate)
    (newId gateId : String) (n : ℕ) :
    (addGate circuit gate newId).measurements = circuit.measurements ∧
    (removeGate circuit gateId).measurements = circuit.measurements ∧
    (setNumQubits circuit n).measurements = circuit.measurements :=
  ⟨rfl, rfl, rfl⟩

/-! ### Claim C8: circuit depth -/

/-- Circuit depth as computed in `InsightsPanel` (`src/unnamed/part_004`,
line 12) and `CircuitFixer` (line 306 of the hooks file):
`Math.max(...circuit.gates.map(g => g.position || 0), 0) + 1`. -/
def circuitDepth (circuit : Circuit) : ℕ :=
  (circuit.gates.map (fun g => g.position.getD 0)).foldr max 0 + 1

lemma le_foldr_max {x : ℕ} {l : List ℕ} (hx : x ∈ l) : x ≤ l.foldr max 0 := by
  induction l with
  | nil => cases hx
  | cons a t ih =>
    rcases List.mem_cons.mp hx with h | h
    · subst h
      exact le_max_left x (t.foldr max 0)
    · exact le_trans (ih h) (le_max_right a (t.foldr max 0))

lemma foldr_max_mem (l : List ℕ) (hne : l ≠ []) : ∃ x ∈ l, l.foldr max 0 = x := by
  induction l with
  | nil => exact absurd rfl hne
  | cons a t ih =>
    cases t with
    | nil => exact ⟨a, List.mem_cons_self a [], by simp⟩
    | cons b u =>
      obtain ⟨x, hx, hmax⟩ := ih (by simp)
      rw [List.foldr_cons, hmax]
      rcases le_total a x with h | h
      · exact ⟨x, List.mem_cons_of_mem a hx, max_eq_right h⟩
      · exact ⟨a, List.mem_cons_self a _, max_eq_left h⟩

/-- Counterexample to C8: the depth of the empty circuit is 1, not 0 — the
source computes `Math.max(0) + 1`. -/
theorem claim_C8_counterexample :
    circuitDepth ⟨[], []⟩ = 1 ∧ circuitDepth ⟨[], []⟩ ≠ 0 := by
  refine ⟨by decide, by decide⟩

/-- C8 (amended): circuit depth is `max(position over all gates, 0) + 1`: it
equals 1 for an empty circuit, and for a non-empty circuit it is an upper
bound of `position + 1` over all gates that is attained by some gate (missing
positions count as 0). -/
theorem claim_C8_depth (circuit : Circuit) :
    (circuit.gates = [] → circuitDepth circuit = 1) ∧
    (∀ g ∈ circuit.gates, g.position.getD 0 + 1 ≤ circuitDepth circuit) ∧
    (circuit.gates ≠ [] →
      ∃ g ∈ circuit.gates, circuitDepth circuit = g.position.getD 0 + 1) := by
  refine ⟨?_, ?_, ?_⟩
  · intro h
    simp [circuitDepth, h]
  · intro g hg
    have : g.position.getD 0 ≤
        (circuit.gates.map (fun g => g.position.getD 0)).foldr max 0 :=
      le_foldr_max (List.mem_map_of_mem _ hg)
    unfold circuitDepth
    omega
  · intro hne
    obtain ⟨x, hx, hmax⟩ := foldr_max_mem
      (circuit.gates.map (fun g => g.position.getD 0)) (by simpa using hne)
    obtain ⟨g, hg, hgx⟩ := List.mem_map.mp hx
    refine ⟨g, hg, ?_⟩
    unfold circuitDepth
    rw [hmax, hgx]

/-- A two-gate circuit with positions 2 and 5, used to witness C8. -/
def c8Circuit : Circuit :=
  ⟨[⟨"1", "H", [0], none, some 2⟩, ⟨"2", "X", [0], none, some 5⟩], []⟩

/-- Witness for the amended C8: both position bounds hold on `c8Circuit`
(whose depth is 6), and the empty circuit has depth 1. -/
theorem claim_C8_depth_witness :
    (⟨"1", "H", [0], none, some 2⟩ : QuantumGate).position.getD 0 + 1
        ≤ circuitDepth c8Circuit ∧
    (⟨"2", "X", [0], none, some 5⟩ : QuantumGate).position.getD 0 + 1
        ≤ circuitDepth c8Circuit ∧
    circuitDepth ⟨[], []⟩ = 1 :=
  ⟨(claim_C8_depth c8Circuit).2.1 _ (by decide),
    (claim_C8_depth c8Circuit).2.1 _ (by decide),
    (claim_C8_depth ⟨[], []⟩).1 rfl⟩

/-! ### Claim C7: shot-count normalisation -/

/-- `Math.round`: round half toward positive infinity, i.e. the floor of
`x + 1/2`. -/
def jsRound (x : ℚ) : ℤ := Rat.floor (x + 1 / 2)

/-- The count-normalisation step of `handleSimulate` (`App.tsx`, lines
93-101): if the raw counts have positive total, each entry is replaced by
`Math.round((count / totalCounts) * shots)`; otherwise the all-zero basis
state receives all shots.  The floating-point division is idealised as exact
rational division. -/
def normalizeCounts (counts : List (String × ℕ)) (shots : ℕ)
    (numQubits : ℕ) : List (String × ℤ) :=
  let totalCounts := (counts.map (fun p => p.2)).sum
  if 0 < totalCounts then
    counts.map
      (fun p => (p.1, jsRound (((p.2 : ℚ) / (totalCounts : ℚ)) * (shots : ℚ))))
  else
    [(String.mk (List.replicate numQubits '0'), (shots : ℤ))]

unseal Rat.add Rat.mul Rat.inv Rat.sub in
/-- C7 fails on the code: raw counts `204, 204, 204, 205` (reachable for the
empty 2-qubit circuit, whose per-state raw count is
`floor(256 * (0.8 + 0.4 * random))`) normalise to `256, 256, 256, 257`,
which sums to 1025, not the configured 1024 shots — per-entry rounding does
not preserve the total, contradicting the comment `Normalize to exactly
'shots' total` in the source. -/
theorem claim_C7_sum_not_shots :
    ((normalizeCounts [("00", 204), ("01", 204), ("10", 204), ("11", 205)]
        1024 2).map (fun p => p.2)).sum = 1025 ∧
    ((normalizeCounts [("00", 204), ("01", 204), ("10", 204), ("11", 205)]
        1024 2).map (fun p => p.2)).sum ≠ 1024 := by
  refine ⟨by decide, by decide⟩

/-! ### Claim C9: export / import round trip -/

/-- A JSON document, the interchange format of `exportCircuit`
(`JSON.stringify(circuit)`) and `importCircuit` (`JSON.parse`).  Numbers are
idealised as rationals. -/
inductive Json where
  | null : Json
  | bool (b : Bool) : Json
  | num (q : ℚ) : Json
  | str (s : String) : Json
  | arr (elems : List Json) : Json
  | obj (fields : List (String × Json)) : Json

/-- Field lookup in a JSON object. -/
def Json.getField : Json → String → Option Json
  | .obj fields, key => fields.lookup key
  | _, _ => none

/-- Read a JSON string. -/
def Json.asString : Json → Option String
  | .str s => some s
  | _ => none

/-- Read a JSON number. -/
def Json.asNumber : Json → Option ℚ
  | .num q => some q
  | _ => none

/-- Read a JSON number as a natural number (qubit indices, positions). -/
def Json.asNat (j : Json) : Option ℕ :=
  match j with
  | .num q => if q.den = 1 ∧ 0 ≤ q.num then some q.num.toNat else none
  | _ => none

/-- Decode every element of a JSON array, failing if any element fails. -/
def decodeListWith {α : Type} (f : Json → Option α) : List Json → Option (List α)
  | [] => some []
  | j :: js => do
    let a ← f j
    let as ← decodeListWith f js
    pure (a :: as)

/-- The JSON number carrying a natural (a qubit index or a position). -/
def natNum (q : ℕ) : Json := Json.num (q : ℚ)

/-- The JSON document `JSON.stringify` produces for one gate: fields `id`,
`name`, `qubits`, and `parameters` / `position` exactly when present
(`JSON.stringify` drops fields holding `undefined`). -/
def encodeGate (g : QuantumGate) : Json :=
  Json.obj
    ([("id", Json.str g.id), ("name", Json.str g.name),
      ("qubits", Json.arr (g.qubits.map natNum))]
      ++ (match g.parameters with
          | some ps => [("parameters", Json.arr (ps.map Json.num))]
          | none => [])
      ++ (match g.position with
          | some p => [("position", natNum p)]
          | none => []))

/-- Read one gate back from its JSON document. -/
def decodeGate (j : Json) : Option QuantumGate := do
  let idJ ← j.getField "id"
  let gid ← idJ.asString
  let nameJ ← j.getField "name"
  let name ← nameJ.asString
  let qubitsJ ← j.getField "qubits"
  let qubits ← match qubitsJ with
    | .arr es => decodeListWith Json.asNat es
    | _ => none
  let parameters ← match j.getField "parameters" with
    | none => some none
    | some v => match v with
      | .arr es => (decodeListWith Json.asNumber es).map some
      | _ => none
  let position ← match j.getField "position" with
    | none => some none
    | some v => (Json.asNat v).map some
  pure ⟨gid, name, qubits, parameters, position⟩

/-- The JSON document for one measurement pair. -/
def encodeMeasurement (m : Measurement) : Json :=
  Json.obj [("qubit", natNum m.qubit), ("bit", natNum m.bit)]

/-- Read one measurement pair back from its JSON document. -/
def decodeMeasurement (j : Json) : Option Measurement := do
  let qubitJ ← j.getField "qubit"
  let qubit ← Json.asNat qubitJ
  let bitJ ← j.getField "bit"
  let bit ← Json.asNat bitJ
  pure ⟨qubit, bit⟩

/-- The JSON document `exportCircuit` serialises (`JSON.stringify(circuit)`,
`useCircuit.ts` lines 42-52): the circuit record with its `gates` and
`measurements` arrays. -/
def encodeCircuit (c : Circuit) : Json :=
  Json.obj
    [("gates", Json.arr (c.gates.map encodeGate)),
     ("measurements", Json.arr (c.measurements.map encodeMeasurement))]

/-- The circuit `importCircuit` reconstructs from a parsed JSON document
(`JSON.parse`, `useCircuit.ts` lines 54-74; the parsed object is installed as
the circuit, so the read is the structural one). -/
def decodeCircuit (j : Json) : Option Circuit := do
  let gatesJ ← j.getField "gates"
  let gates ← match gatesJ with
    | .arr es => decodeListWith decodeGate es
    | _ => none
  let msJ ← j.getField "measurements"
  let ms ← match msJ with
    | .arr es => decodeListWith decodeMeasurement es
    | _ => none
  pure ⟨gates, ms⟩

lemma asNat_encode (k : ℕ) : Json.asNat (natNum k) = some k := by
  simp [Json.asNat, natNum, Rat.num_natCast, Rat.den_natCast]

lemma decodeListWith_nat (l : List ℕ) :
    decodeListWith Json.asNat (l.map natNum) = some l := by
  induction l with
  | nil => rfl
  | cons a t ih => simp [decodeListWith, asNat_encode, ih]

lemma decodeListWith_num (l : List ℚ) :
    decodeListWith Json.asNumber (l.map Json.num) = some l := by
  induction l with
  | nil => rfl
  | cons a t ih => simp [decodeListWith, Json.asNumber, ih]

lemma decodeGate_encodeGate (g : QuantumGate) :
    decodeGate (encodeGate g) = some g := by
  rcases g with ⟨gid, name, qubits, params, pos⟩
  rcases params with _ | ps <;> rcases pos with _ | p <;>
    simp [encodeGate, decodeGate, Json.getField, Json.asString, List.lookup,
      decodeListWith_nat, decodeListWith_num, asNat_encode]

lemma decodeMeasurement_encodeMeasurement (m : Measurement) :
    decodeMeasurement (encodeMeasurement m) = some m := by
  rcases m with ⟨q, b⟩
  simp [encodeMeasurement, decodeMeasurement, Json.getField, List.lookup,
    asNat_encode]

lemma decodeListWith_gates (l : List QuantumGate) :
    decodeListWith decodeGate (l.map encodeGate) = some l := by
  induction l with
  | nil => rfl
  | cons a t ih => simp [decodeListWith, decodeGate_encodeGate, ih]

lemma decodeListWith_measurements (l : List Measurement) :
    decodeListWith decodeMeasurement (l.map encodeMeasurement) = some l := by
  induction l with
  | nil => rfl
  | cons a t ih => simp [decodeListWith, decodeMeasurement_encodeMeasurement, ih]

/-- C9: importing the exported serialisation of any circuit reconstructs the
circuit exactly — every gate id, name, qubit list, parameter list and
position, and the measurement list, are preserved (the source regenerates no
ids: `JSON.parse(JSON.stringify(circuit))` restores the very same values). -/
theorem claim_C9_round_trip (c : Circuit) :
    decodeCircuit (encodeCircuit c) = some c := by
  rcases c with ⟨gates, ms⟩
  simp [encodeCircuit, decodeCircuit, Json.getField, List.lookup,
    decodeListWith_gates, decodeListWith_measurements]

end QuantumSim
